import Mathlib

/-!
Shallow embedding of the `abagames-util` runtime core: the fixed-capacity
entity pool (`src/pool.rs`) and the adaptive fixed-timestep frame scheduler
(`src/sdl/mainloop.rs`).

Modelling conventions:
* A Rust `Vec<T>` is a `List T` whose `push` appends at the end and whose
  `pop` removes the last element.
* A panic (`assert_ne!`, `.expect(..)`) is modelled as `Option.none` /
  a function returning `Option`.
* Rust `f32` quantities (slowdown ratios, the scheduler interval) are
  modelled as `ℚ`; `u32` millisecond tick counters are modelled as `ℕ`.
* A mutating closure `FnMut(&mut T) -> R` is modelled as a state-passing
  function `ζ → T → ζ × T × R`: `ζ` is the closure's captured state and the
  returned `T` is the element after mutation.
-/

namespace AbagamesUtil

/-- `Vec::push`: append at the end. -/
def vecPush {α : Type _} (l : List α) (x : α) : List α := l ++ [x]

/-- `Vec::pop`: remove and return the last element, `none` on an empty vector. -/
def vecPop {α : Type _} (l : List α) : Option (List α × α) :=
  match l.getLast? with
  | none => none
  | some x => some (l.dropLast, x)

/-- `Vec::swap_remove(idx)`: replace the element at `idx` by the last element
and shrink the vector by one.  (For `idx = len - 1` the `set` is out of range
and the result is just `dropLast`, matching `swap_remove` of the last slot.
On the empty vector — where Rust would panic — we return `[]`; every call
site below guards `idx < l.length`.) -/
def swapRemove {α : Type _} (l : List α) (idx : ℕ) : List α :=
  match l.getLast? with
  | none => []
  | some last => l.dropLast.set idx last

/-- Whether to keep or remove a pool entity after stepping it (`PoolRemoval`). -/
inductive PoolRemoval : Type
  /-- Keep the entity in the pool. -/
  | Keep : PoolRemoval
  /-- Remove the entity from the pool. -/
  | Remove : PoolRemoval
deriving DecidableEq, Repr

/-- An entity pool of a fixed size (`Pool<T>`): the unused objects (`pool`,
the "free" subset) and the in-use objects (`in_use`). -/
structure Pool (α : Type _) : Type _ where
  /-- The unused objects. -/
  pool : List α
  /-- The in-use objects. -/
  in_use : List α
deriving DecidableEq, Repr

namespace Pool

/-- `Pool::new(size, ctor)`: `size` elements produced by the nullary
constructor fill the free list; `in_use` starts empty.  `assert_ne!(size, 0)`
panics on a zero capacity, modelled by `none`. -/
def new {α : Type _} (size : ℕ) (ctor : Unit → α) : Option (Pool α) :=
  if size = 0 then none
  else some { pool := List.replicate size (ctor ()), in_use := [] }

/-- `Pool::new_indexed(size, ctor)`: the free list is `ctor` mapped over
`0..size`; `in_use` starts empty.  Zero capacity panics, modelled by `none`. -/
def new_indexed {α : Type _} (size : ℕ) (ctor : ℕ → α) : Option (Pool α) :=
  if size = 0 then none
  else some { pool := (List.range size).map ctor, in_use := [] }

/-- `Pool::get`: pop one element off the free list, push it onto `in_use`,
and return the new state together with the index of the handle into
`in_use` (the handle is `in_use.last_mut()`). -/
def get {α : Type _} (p : Pool α) : Option (Pool α × ℕ) :=
  match vecPop p.pool with
  | some (rest, item) =>
    let inuse := vecPush p.in_use item
    some ({ pool := rest, in_use := inuse }, inuse.length - 1)
  | none => none

/-- `Pool::get_force`: like `get`, but when the free list is empty return a
handle to the first `in_use` element instead.  The trailing `.expect(..)`
panics only when both lists are empty, modelled by `none`. -/
def get_force {α : Type _} (p : Pool α) : Option (Pool α × ℕ) :=
  match vecPop p.pool with
  | some (rest, item) =>
    let inuse := vecPush p.in_use item
    some ({ pool := rest, in_use := inuse }, inuse.length - 1)
  | none =>
    match p.in_use with
    | [] => none
    | _ :: _ => some (p, 0)

/-- `Pool::clear`: drain every `in_use` element (in order) onto the end of
the free list. -/
def clear {α : Type _} (p : Pool α) : Pool α :=
  { pool := p.pool ++ p.in_use, in_use := [] }

/-- A caller writing the value `v` through a handle returned by
`get`/`get_force` (the handle is a `&mut T` aimed at `in_use[i]`). -/
def writeAt {α : Type _} (p : Pool α) (i : ℕ) (v : α) : Pool α :=
  { p with in_use := p.in_use.set i v }

/-- The total number of elements held by the pool (free plus in-use). -/
def size {α : Type _} (p : Pool α) : ℕ := p.pool.length + p.in_use.length

end Pool

/-- The index scan of `Pool::run`: while `idx < in_use.len()`, call the
closure on `in_use[idx]` (threading the closure state `ζ` and applying the
closure's mutation of the element); on `Remove`, push the (mutated) element
onto the free list via `swap_remove` and do not advance `idx`; on `Keep`,
advance `idx`.  The fourth component of the result is a ghost log of the
visited elements (their values as seen by the closure, in visit order),
used only to state visitation-count properties; `Pool.run` discards it. -/
def runAux {α ζ : Type _} (f : ζ → α → ζ × α × PoolRemoval) (z : ζ)
    (pool inuse : List α) (idx : ℕ) (log : List α) :
    ζ × List α × List α × List α :=
  if h : idx < inuse.length then
    let v := inuse.get ⟨idx, h⟩
    let r := f z v
    let inuse' := inuse.set idx r.2.1
    match r.2.2 with
    | PoolRemoval.Remove =>
      runAux f r.1 (vecPush pool r.2.1) (swapRemove inuse' idx) idx (vecPush log v)
    | PoolRemoval.Keep =>
      runAux f r.1 pool inuse' (idx + 1) (vecPush log v)
  else (z, pool, inuse, log)
termination_by inuse.length - idx
decreasing_by
  · have h1 : (inuse.set idx (f z (inuse.get ⟨idx, h⟩)).2.1).length = inuse.length :=
      List.length_set ..
    have h2 : inuse.set idx (f z (inuse.get ⟨idx, h⟩)).2.1 ≠ [] := by
      intro hc
      rw [hc] at h1
      simp at h1
      omega
    cases hgl : (inuse.set idx (f z (inuse.get ⟨idx, h⟩)).2.1).getLast? with
    | none => exact absurd (List.getLast?_eq_none_iff.mp hgl) h2
    | some last =>
      simp only [swapRemove, hgl, List.length_set, List.length_dropLast, h1]
      omega
  · simp only [List.length_set]
    omega

/-- The index scan of `Pool::run_ref`: as `runAux`, but the closure also
receives a read-only view of the other in-use elements (those before `idx`
chained with those after `idx`). -/
def runRefAux {α ζ : Type _} (f : ζ → α → List α → ζ × α × PoolRemoval) (z : ζ)
    (pool inuse : List α) (idx : ℕ) :
    ζ × List α × List α :=
  if h : idx < inuse.length then
    let v := inuse.get ⟨idx, h⟩
    let others := inuse.take idx ++ inuse.drop (idx + 1)
    let r := f z v others
    let inuse' := inuse.set idx r.2.1
    match r.2.2 with
    | PoolRemoval.Remove =>
      runRefAux f r.1 (vecPush pool r.2.1) (swapRemove inuse' idx) idx
    | PoolRemoval.Keep =>
      runRefAux f r.1 pool inuse' (idx + 1)
  else (z, pool, inuse)
termination_by inuse.length - idx
decreasing_by
  · have h1 : (inuse.set idx
        (f z (inuse.get ⟨idx, h⟩) (inuse.take idx ++ inuse.drop (idx + 1))).2.1).length
        = inuse.length := List.length_set ..
    have h2 : inuse.set idx
        (f z (inuse.get ⟨idx, h⟩) (inuse.take idx ++ inuse.drop (idx + 1))).2.1 ≠ [] := by
      intro hc
      rw [hc] at h1
      simp at h1
      omega
    cases hgl : (inuse.set idx
        (f z (inuse.get ⟨idx, h⟩) (inuse.take idx ++ inuse.drop (idx + 1))).2.1).getLast? with
    | none => exact absurd (List.getLast?_eq_none_iff.mp hgl) h2
    | some last =>
      simp only [swapRemove, hgl, List.length_set, List.length_dropLast, h1]
      omega
  · simp only [List.length_set]
    omega

/-- The index scan of `Pool::expire`: a read-only predicate decides removal;
the element is not mutated before the decision. -/
def expireAux {α : Type _} (pred : α → PoolRemoval)
    (pool inuse : List α) (idx : ℕ) :
    List α × List α :=
  if h : idx < inuse.length then
    if pred (inuse.get ⟨idx, h⟩) = PoolRemoval.Remove then
      expireAux pred (vecPush pool (inuse.get ⟨idx, h⟩)) (swapRemove inuse idx) idx
    else
      expireAux pred pool inuse (idx + 1)
  else (pool, inuse)
termination_by inuse.length - idx
decreasing_by
  · have h2 : inuse ≠ [] := by
      intro hc
      rw [hc] at h
      simp at h
    cases hgl : inuse.getLast? with
    | none => exact absurd (List.getLast?_eq_none_iff.mp hgl) h2
    | some last =>
      simp only [swapRemove, hgl, List.length_set, List.length_dropLast]
      omega
  · omega

/-- `Pool::run(func)`: scan the in-use list from index 0, returning expired
objects to the free list.  The closure state and the ghost visit log of
`runAux` are discarded. -/
def Pool.run {α ζ : Type _} (p : Pool α) (f : ζ → α → ζ × α × PoolRemoval) (z : ζ) :
    Pool α :=
  let r := runAux f z p.pool p.in_use 0 []
  { pool := r.2.1, in_use := r.2.2.1 }

/-- `Pool::run_ref(func)`: as `Pool.run`, but the closure sees the other
in-use elements. -/
def Pool.run_ref {α ζ : Type _} (p : Pool α) (f : ζ → α → List α → ζ × α × PoolRemoval)
    (z : ζ) : Pool α :=
  let r := runRefAux f z p.pool p.in_use 0
  { pool := r.2.1, in_use := r.2.2 }

/-- `Pool::expire(pred)`: return every in-use object on which the read-only
predicate answers `Remove` to the free list. -/
def Pool.expire {α : Type _} (p : Pool α) (pred : α → PoolRemoval) : Pool α :=
  let r := expireAux pred p.pool p.in_use 0
  { pool := r.1, in_use := r.2 }

/-! ### Frame scheduler (`src/sdl/mainloop.rs`) -/

/-- `INTERVAL_BASE`: the nominal milliseconds-per-tick (16.0). -/
def INTERVAL_BASE : ℚ := 16

/-- `MAX_SKIP_FRAME`: the ceiling on logical ticks per real frame. -/
def MAX_SKIP_FRAME : ℤ := 5

/-- `NO_WAIT`: when true, interval adaptation is skipped.  False by default. -/
def NO_WAIT : Bool := false

/-- `ACCELERATE_FRAME`: when true, the delay branch re-samples the clock
instead of advancing `prev_tick` by one interval.  False by default. -/
def ACCELERATE_FRAME : Bool := false

/-- The constant SLOWDOWN_START_RATIO (1.0). -/
def SLOWDOWN_START_RATIO : ℚ := 1

/-- The constant SLOWDOWN_MAX_RATIO (1.75). -/
def SLOWDOWN_MAX_RATIO : ℚ := 7 / 4

/-- Behavior from stepping a frame in the game state (`StepResult`), with the
`f32` slowdown factor modelled as `ℚ`. -/
inductive StepResult : Type
  /-- Slow down the game by the given factor. -/
  | Slowdown (s : ℚ) : StepResult
  /-- The game is complete. -/
  | Done : StepResult
deriving DecidableEq, Repr

/-- `StepResult::merge`: `Done` on either side wins; two slowdowns sum. -/
def StepResult.merge : StepResult → StepResult → StepResult
  | StepResult.Done, _ => StepResult.Done
  | _, StepResult.Done => StepResult.Done
  | StepResult.Slowdown s1, StepResult.Slowdown s2 => StepResult.Slowdown (s1 + s2)

/-- `MainLoop::calculate_interval`: exponential smoothing of the tick
interval from the average per-tick slowdown (`0.1 = 1/10`, `0.08 = 2/25`). -/
def calculateInterval (interval slowdown : ℚ) : ℚ :=
  interval +
    if slowdown > SLOWDOWN_START_RATIO then
      (min (slowdown / SLOWDOWN_START_RATIO) SLOWDOWN_MAX_RATIO * INTERVAL_BASE - interval)
        * (1 / 10)
    else
      (INTERVAL_BASE - interval) * (2 / 25)

/-- The interval sequence produced by a simulation reporting a per-tick
slowdown of 2.0 on every tick of every frame (so the per-frame average passed
to `calculate_interval` is 2), starting from the base interval. -/
def intervalSeq : ℕ → ℚ
  | 0 => INTERVAL_BASE
  | n + 1 => calculateInterval (intervalSeq n) 2

/-- Truncation toward zero, the semantics of Rust `as i32` on a finite
`f32` value. -/
def ratTrunc (q : ℚ) : ℤ :=
  if 0 ≤ q then ⌊q⌋ else -⌊-q⌋

/-- The per-frame tick scheduling of `MainLoop::run` (mainloop.rs lines
111–133): from `prev_tick`, `now_tick` and the current interval, compute
`frame = ((now - prev) / interval) as i32` and produce
`(frames to run, new prev_tick, delay request)`.  In the `frame <= 0` branch
the loop sleeps for `prev_tick + interval_u32 - now_tick` milliseconds
(`interval_u32 = interval as u32`; the subtraction is modelled as truncated
`ℕ` subtraction, which agrees with `u32` arithmetic whenever it does not
wrap) and, with `ACCELERATE_FRAME` disabled, advances `prev_tick` by
`interval_u32`; `⌊interval⌋₊` models the saturating-truncating `f32 → u32`
cast. -/
def frameAdvance (prev now : ℕ) (interval : ℚ) : ℕ × ℕ × Option ℕ :=
  let frame : ℤ := ratTrunc (((now : ℚ) - (prev : ℚ)) / interval)
  if frame ≤ 0 then
    let interval_u32 : ℕ := ⌊interval⌋₊
    (1, prev + interval_u32, some (prev + interval_u32 - now))
  else if frame > MAX_SKIP_FRAME then
    (MAX_SKIP_FRAME.toNat, now, none)
  else
    (frame.toNat, now, none)

/-- Steps in setting up a game instance (`GameStep` in sdl/error.rs); the
tag wrapped around a lifecycle error by `MainLoop::run`. -/
inductive GameStep : Type
  /-- Initialization of the game. -/
  | Initialize : GameStep
  /-- Handling an event. -/
  | HandleEvent : GameStep
  /-- Stepping the game. -/
  | StepGame : GameStep
  /-- Drawing a frame. -/
  | DrawFrame : GameStep
  /-- Quitting the game. -/
  | Quit : GameStep
deriving DecidableEq, Repr

/-- An SDL event as seen by the loop: either the host quit request
(`Event::Quit { .. }`) or any other event with payload `ε`. -/
inductive SdlEvent (ε : Type _) : Type _
  /-- The host quit request. -/
  | quitEvent : SdlEvent ε
  /-- Any other event. -/
  | otherEvent (e : ε) : SdlEvent ε
deriving DecidableEq, Repr

/-- The `Game` trait: a simulation with state `σ`, error type `E`, input
snapshot type `ι` and event payload type `ε`.  Each Rust `&mut self` method
is modelled as state-passing. -/
structure Game (σ E ι ε : Type _) : Type _ where
  /-- Initialize the game. -/
  init : σ → Except E σ
  /-- Handle an event; `true` means the game should exit. -/
  handleEvent : σ → SdlEvent ε → Except E (Bool × σ)
  /-- Step the game one frame with the given input. -/
  step : σ → ι → Except E (StepResult × σ)
  /-- Draw the game to the screen. -/
  draw : σ → Except E σ
  /-- Quit the game. -/
  quit : σ → Except E σ

/-- A ghost record of which lifecycle method the loop invoked, used to state
invocation-count properties. -/
inductive Call : Type
  /-- An `init` invocation. -/
  | initCall : Call
  /-- A `handle_event` invocation. -/
  | handleEventCall : Call
  /-- A `step` invocation. -/
  | stepCall : Call
  /-- A `draw` invocation. -/
  | drawCall : Call
  /-- A `quit` invocation. -/
  | quitCall : Call
deriving DecidableEq, Repr

/-- The event-handling head of a loop iteration (mainloop.rs lines 95–109):
a polled `Event::Quit` makes the frame terminal without consulting the game;
any other polled event goes to `handle_event`, whose error is tagged
`HandleEvent`; no event means not terminal. -/
def handleEventPart {σ E ι ε : Type _} (g : Game σ E ι ε)
    (event : Option (SdlEvent ε)) (s : σ) :
    List Call × Except (GameStep × E) (Bool × σ) :=
  match event with
  | some SdlEvent.quitEvent => ([], Except.ok (true, s))
  | some (SdlEvent.otherEvent e) =>
    match g.handleEvent s (SdlEvent.otherEvent e) with
    | Except.error er => ([Call.handleEventCall], Except.error (GameStep.HandleEvent, er))
    | Except.ok bs => ([Call.handleEventCall], Except.ok bs)
  | none => ([], Except.ok (false, s))

/-- The per-frame tick batch (mainloop.rs lines 137–145):
`(0..frames).map(|_| step(..)).collect::<Result<Vec<_>>>()`.  The collect
short-circuits on the first erroring `step`; otherwise all `frames` steps run
(even after a `Done`) and their results are listed in order.  A `step` error
is tagged `StepGame`. -/
def stepsLoop {σ E ι ε : Type _} (g : Game σ E ι ε) (input : ι) :
    ℕ → σ → List Call × Except (GameStep × E) (List StepResult × σ)
  | 0, s => ([], Except.ok ([], s))
  | n + 1, s =>
    match g.step s input with
    | Except.error e => ([Call.stepCall], Except.error (GameStep.StepGame, e))
    | Except.ok (r, s') =>
      let rest := stepsLoop g input n s'
      (Call.stepCall :: rest.1,
        match rest.2 with
        | Except.error e => Except.error e
        | Except.ok rs => Except.ok (r :: rs.1, rs.2))

/-- One iteration of the scheduler loop (mainloop.rs lines 94–165), given
the polled event, the sampled clock and the input snapshot of this
iteration: event handling, tick scheduling, the tick batch folded with
`StepResult::merge` from `Slowdown(0.)` (a folded `Done` zeroes the slowdown
and marks the frame terminal), one `draw` (tagged `DrawFrame` on error), and
— `NO_WAIT` being false — the interval update from the per-tick average
slowdown.  Returns the call trace and either a tagged error or
`(state, prev_tick, interval, terminal?)`. -/
def loopBody {σ E ι ε : Type _} (g : Game σ E ι ε) (event : Option (SdlEvent ε))
    (now : ℕ) (input : ι) (s : σ) (prev : ℕ) (interval : ℚ) :
    List Call × Except (GameStep × E) (σ × ℕ × ℚ × Bool) :=
  match handleEventPart g event s with
  | (tr, Except.error e) => (tr, Except.error e)
  | (tr, Except.ok (isDone0, s1)) =>
    let fa := frameAdvance prev now interval
    match stepsLoop g input fa.1 s1 with
    | (trS, Except.error e) => (tr ++ trS, Except.error e)
    | (trS, Except.ok (results, s2)) =>
      let merged := results.foldl StepResult.merge (StepResult.Slowdown 0)
      let isDone1 := match merged with
        | StepResult.Done => true
        | StepResult.Slowdown _ => isDone0
      let slowdown := match merged with
        | StepResult.Done => (0 : ℚ)
        | StepResult.Slowdown sl => sl
      match g.draw s2 with
      | Except.error e => (tr ++ trS ++ [Call.drawCall], Except.error (GameStep.DrawFrame, e))
      | Except.ok s3 =>
        let interval' :=
          if NO_WAIT then interval else calculateInterval interval (slowdown / (fa.1 : ℚ))
        (tr ++ trS ++ [Call.drawCall], Except.ok (s3, fa.2.1, interval', isDone1))

/-- The scheduler loop, driven by environment streams giving the clock
sample, the polled event and the input snapshot of each iteration.  `fuel`
bounds the number of iterations; `Except.ok none` means the fuel ran out
with the loop still running (the Rust loop is unbounded).  A terminal frame
stops iteration after its `draw`. -/
def runLoop {σ E ι ε : Type _} (g : Game σ E ι ε) (ticksAt : ℕ → ℕ)
    (events : ℕ → Option (SdlEvent ε)) (inputAt : ℕ → ι) :
    ℕ → σ → ℕ → ℚ → ℕ → List Call × Except (GameStep × E) (Option σ)
  | 0, _, _, _, _ => ([], Except.ok none)
  | fuel + 1, s, prev, interval, i =>
    match loopBody g (events i) (ticksAt i) (inputAt i) s prev interval with
    | (tr, Except.error e) => (tr, Except.error e)
    | (tr, Except.ok (s', _, _, true)) => (tr, Except.ok (some s'))
    | (tr, Except.ok (s', prev', int', false)) =>
      let rest := runLoop g ticksAt events inputAt fuel s' prev' int' (i + 1)
      (tr ++ rest.1, rest.2)

/-- The loop followed by the single post-loop `quit` (tagged `Quit` on
error).  When the fuel ran out the loop is still running, so `quit` has not
yet been invoked. -/
def loopThenQuit {σ E ι ε : Type _} (g : Game σ E ι ε) (ticksAt : ℕ → ℕ)
    (events : ℕ → Option (SdlEvent ε)) (inputAt : ℕ → ι)
    (fuel : ℕ) (s : σ) (prev : ℕ) (interval : ℚ) (i : ℕ) :
    List Call × Except (GameStep × E) (Option σ) :=
  match runLoop g ticksAt events inputAt fuel s prev interval i with
  | (tr, Except.error e) => (tr, Except.error e)
  | (tr, Except.ok none) => (tr, Except.ok none)
  | (tr, Except.ok (some s')) =>
    match g.quit s' with
    | Except.error e => (tr ++ [Call.quitCall], Except.error (GameStep.Quit, e))
    | Except.ok s'' => (tr ++ [Call.quitCall], Except.ok (some s''))

/-- `MainLoop::run`: `init` (tagged `Initialize` on error, in which case the
loop and `quit` never run), then the loop from `prev_tick = 0` and
`interval = INTERVAL_BASE`, then `quit`.  (Acquiring the SDL event pump and
timer is environmental and modelled as always succeeding.) -/
def runGame {σ E ι ε : Type _} (g : Game σ E ι ε) (ticksAt : ℕ → ℕ)
    (events : ℕ → Option (SdlEvent ε)) (inputAt : ℕ → ι) (s0 : σ) (fuel : ℕ) :
    List Call × Except (GameStep × E) (Option σ) :=
  match g.init s0 with
  | Except.error e => ([Call.initCall], Except.error (GameStep.Initialize, e))
  | Except.ok s1 =>
    let r := loopThenQuit g ticksAt events inputAt fuel s1 0 INTERVAL_BASE 0
    (Call.initCall :: r.1, r.2)

/-! ### Concrete scenarios used by witnesses and counterexamples -/

/-- A caller allocating from the pool and immediately stamping the new
handle with the value `v` (e.g. an allocation sequence number): `get`
followed by a write through the returned handle. -/
def getW (p : Pool ℕ) (v : ℕ) : Option (Pool ℕ) :=
  (Pool.get p).map (fun r => r.1.writeAt r.2 v)

/-- A mock game whose `step` always reports completion; every lifecycle
method succeeds and leaves an arithmetic fingerprint on the state. -/
def doneGame : Game ℕ Unit Unit Unit where
  init := fun s => Except.ok s
  handleEvent := fun s _ => Except.ok (false, s)
  step := fun s _ => Except.ok (StepResult.Done, s + 1)
  draw := fun s => Except.ok (s + 10)
  quit := fun s => Except.ok (s + 100)

/-- A mock game whose `init` fails. -/
def errInitGame : Game ℕ Unit Unit Unit where
  init := fun _ => Except.error ()
  handleEvent := fun s _ => Except.ok (false, s)
  step := fun s _ => Except.ok (StepResult.Slowdown 1, s)
  draw := fun s => Except.ok s
  quit := fun s => Except.ok s

/-- A mock game whose `handle_event` fails. -/
def errEventGame : Game ℕ Unit Unit Unit where
  init := fun s => Except.ok s
  handleEvent := fun _ _ => Except.error ()
  step := fun s _ => Except.ok (StepResult.Slowdown 1, s)
  draw := fun s => Except.ok s
  quit := fun s => Except.ok s

/-- A mock game whose `step` fails. -/
def errStepGame : Game ℕ Unit Unit Unit where
  init := fun s => Except.ok s
  handleEvent := fun s _ => Except.ok (false, s)
  step := fun _ _ => Except.error ()
  draw := fun s => Except.ok s
  quit := fun s => Except.ok s

/-- A mock game whose `draw` fails. -/
def errDrawGame : Game ℕ Unit Unit Unit where
  init := fun s => Except.ok s
  handleEvent := fun s _ => Except.ok (false, s)
  step := fun s _ => Except.ok (StepResult.Slowdown 1, s)
  draw := fun _ => Except.error ()
  quit := fun s => Except.ok s

/-- A mock game that finishes on its first tick and whose `quit` fails. -/
def errQuitGame : Game ℕ Unit Unit Unit where
  init := fun s => Except.ok s
  handleEvent := fun s _ => Except.ok (false, s)
  step := fun s _ => Except.ok (StepResult.Done, s)
  draw := fun s => Except.ok s
  quit := fun _ => Except.error ()

/-- An environment clock that reads 100 ms on every sample. -/
def ticks100 : ℕ → ℕ := fun _ => 100

/-- An environment with no pending events. -/
def noEvents : ℕ → Option (SdlEvent Unit) := fun _ => none

/-- An environment whose every poll yields a non-quit event. -/
def otherEvents : ℕ → Option (SdlEvent Unit) := fun _ => some (SdlEvent.otherEvent ())

/-- The trivial input snapshot stream. -/
def unitInput : ℕ → Unit := fun _ => ()

/-! ### Theorems -/

theorem swapRemove_length {α : Type _} (l : List α) (idx : ℕ) (h : l ≠ []) :
    (swapRemove l idx).length = l.length - 1 := by
  unfold swapRemove
  match hl : l.getLast? with
  | none => exact absurd (List.getLast?_eq_none_iff.mp hl) h
  | some last => simp [List.length_set, List.length_dropLast]

/-- C9: constructing a pool with capacity 0 fails fast (the `assert_ne!`
panic, modelled as `none`) for both constructors; for every capacity
`n > 0` construction succeeds, with all `n` elements in the free subset and
none in use. -/
theorem pool_new_zero_capacity {α : Type _} :
    (∀ ctor : Unit → α, Pool.new 0 ctor = none) ∧
    (∀ ctor : ℕ → α, Pool.new_indexed 0 ctor = none) ∧
    (∀ (n : ℕ) (ctor : Unit → α), 0 < n →
      ∃ p : Pool α, Pool.new n ctor = some p ∧ p.pool.length = n ∧ p.in_use = []) ∧
    (∀ (n : ℕ) (ctor : ℕ → α), 0 < n →
      ∃ p : Pool α, Pool.new_indexed n ctor = some p ∧ p.pool.length = n ∧ p.in_use = []) := by
  refine ⟨fun ctor => rfl, fun ctor => rfl, ?_, ?_⟩
  · intro n ctor hn
    refine ⟨{ pool := List.replicate n (ctor ()), in_use := [] }, ?_, ?_, rfl⟩
    · simp [Pool.new, Nat.pos_iff_ne_zero.mp hn]
    · simp
  · intro n ctor hn
    refine ⟨{ pool := (List.range n).map ctor, in_use := [] }, ?_, ?_, rfl⟩
    · simp [Pool.new_indexed, Nat.pos_iff_ne_zero.mp hn]
    · simp

/-- Witness for `pool_new_zero_capacity` at capacity 3. -/
theorem pool_new_zero_capacity_witness :
    (0 < 3) ∧
    (∃ p : Pool ℕ, Pool.new 3 (fun _ => 0) = some p ∧ p.pool.length = 3 ∧ p.in_use = []) :=
  ⟨by decide, pool_new_zero_capacity.2.2.1 3 (fun _ => 0) (by decide)⟩

/-- C10: on a saturated pool (`free` empty, `in_use` nonempty), `get_force`
changes neither subset — the state is returned unchanged and the handle is
index 0 of the untouched `in_use` — in contrast with the non-saturated path,
which moves exactly one element from `free` to `in_use`. -/
theorem pool_getForce_saturated_frame_effect {α : Type _} (p : Pool α)
    (hfree : p.pool = []) (huse : p.in_use ≠ []) :
    Pool.get_force p = some (p, 0) ∧
    0 < p.in_use.length ∧
    (∀ q : Pool α, q.pool ≠ [] →
      ∃ q' i, Pool.get_force q = some (q', i) ∧
        q'.pool.length + 1 = q.pool.length ∧
        q'.in_use.length = q.in_use.length + 1) := by
  obtain ⟨x, xs, hx⟩ := List.exists_cons_of_ne_nil huse
  refine ⟨?_, ?_, ?_⟩
  · simp [Pool.get_force, vecPop, hfree, hx]
  · simp [hx]
  · intro q hq
    cases hgl : q.pool.getLast? with
    | none => exact absurd (List.getLast?_eq_none_iff.mp hgl) hq
    | some y =>
      refine ⟨{ pool := q.pool.dropLast, in_use := vecPush q.in_use y },
        (vecPush q.in_use y).length - 1, ?_, ?_, ?_⟩
      · simp [Pool.get_force, vecPop, hgl, vecPush]
      · have := List.length_pos.mpr hq
        simp only [List.length_dropLast]
        omega
      · simp [vecPush]

/-- Witness for `pool_getForce_saturated_frame_effect` on a concrete
saturated pool. -/
theorem pool_getForce_saturated_frame_effect_witness :
    ((Pool.mk [] [5, 7] : Pool ℕ).pool = [] ∧ (Pool.mk [] [5, 7] : Pool ℕ).in_use ≠ []) ∧
    (Pool.get_force (Pool.mk [] [5, 7] : Pool ℕ) = some (Pool.mk [] [5, 7], 0) ∧
      0 < (Pool.mk [] [5, 7] : Pool ℕ).in_use.length ∧
      (∀ q : Pool ℕ, q.pool ≠ [] →
        ∃ q' i, Pool.get_force q = some (q', i) ∧
          q'.pool.length + 1 = q.pool.length ∧
          q'.in_use.length = q.in_use.length + 1)) :=
  ⟨⟨rfl, by decide⟩,
    pool_getForce_saturated_frame_effect (Pool.mk [] [5, 7]) rfl (by decide)⟩

/-- C3 counterexample: an allocation-stamped scenario on a capacity-3 pool.
Each `getW p k` allocates and stamps the handle with the allocation counter
`k`, so a larger stamp means a later allocation.  After allocating stamps
1, 2, 3, expiring the element stamped 1 (a swap-removal, which moves the
last element to the front) and allocating stamp 4, the pool is saturated
with `in_use = [3, 2, 4]`.  `get_force` then hands out the element at index
0, whose stamp is 3, yet the oldest surviving allocation is the element
stamped 2: the claim that the forced handle refers to the oldest surviving
allocation is false. -/
theorem pool_getForce_oldest_counterexample :
    (((((Pool.new 3 (fun _ => (0 : ℕ))).bind (fun p => getW p 1)).bind
        (fun p => getW p 2)).bind (fun p => getW p 3)).map
        (fun p => p.expire
          (fun x => if x = 1 then PoolRemoval.Remove else PoolRemoval.Keep))).bind
        (fun p => getW p 4)
      = some (Pool.mk [] [3, 2, 4]) ∧
    Pool.get_force (Pool.mk [] [3, 2, 4] : Pool ℕ) = some (Pool.mk [] [3, 2, 4], 0) ∧
    (Pool.mk [] [3, 2, 4] : Pool ℕ).in_use.head? = some 3 ∧
    (Pool.mk [] [3, 2, 4] : Pool ℕ).in_use.min? = some 2 ∧
    (3 : ℕ) ≠ 2 := by
  refine ⟨?_, by decide, by decide, by decide, by decide⟩
  have h1 : ((((Pool.new 3 (fun _ => (0 : ℕ))).bind (fun p => getW p 1)).bind
      (fun p => getW p 2)).bind (fun p => getW p 3)) = some (Pool.mk [] [1, 2, 3]) := rfl
  have h2 : Pool.expire (Pool.mk [] [1, 2, 3])
      (fun x => if x = 1 then PoolRemoval.Remove else PoolRemoval.Keep) = Pool.mk [1] [3, 2] := by
    simp +decide [Pool.expire, expireAux, swapRemove, vecPush]
  rw [h1, Option.map_some', h2]
  rfl

/-- C3 amended: on a saturated pool (`free` empty) with a nonempty `in_use`,
`get_force` always returns a handle (it never fails), and that handle refers
to the element at index 0 of `in_use` — the front of the insertion-ordered
in-use vector, which coincides with the oldest surviving allocation only
when no swap-removal has reordered `in_use`. -/
theorem pool_getForce_returns_first_inuse {α : Type _} (p : Pool α)
    (hfree : p.pool = []) (huse : p.in_use ≠ []) :
    (Pool.get_force p).isSome = true ∧
    Pool.get_force p = some (p, 0) ∧
    p.in_use.head? = some (p.in_use.head huse) := by
  obtain ⟨x, xs, hx⟩ := List.exists_cons_of_ne_nil huse
  refine ⟨?_, ?_, ?_⟩
  · simp [Pool.get_force, vecPop, hfree, hx]
  · simp [Pool.get_force, vecPop, hfree, hx]
  · rw [List.head?_eq_head]

/-- Witness for `pool_getForce_returns_first_inuse` on a concrete saturated
pool. -/
theorem pool_getForce_returns_first_inuse_witness :
    ((Pool.mk [] [8, 9] : Pool ℕ).pool = [] ∧ (Pool.mk [] [8, 9] : Pool ℕ).in_use ≠ []) ∧
    ((Pool.get_force (Pool.mk [] [8, 9] : Pool ℕ)).isSome = true ∧
      Pool.get_force (Pool.mk [] [8, 9] : Pool ℕ) = some (Pool.mk [] [8, 9], 0) ∧
      (Pool.mk [] [8, 9] : Pool ℕ).in_use.head? =
        some ((Pool.mk [] [8, 9] : Pool ℕ).in_use.head (by decide))) :=
  ⟨⟨rfl, by decide⟩, pool_getForce_returns_first_inuse (Pool.mk [] [8, 9]) rfl (by decide)⟩

/-- C5: `StepResult::merge` is associative and commutative, on the
`Slowdown` variant it sums the two ratios, and `Done` is absorbing on
either side. -/
theorem stepResult_merge_laws :
    (∀ a b c : StepResult, (a.merge b).merge c = a.merge (b.merge c)) ∧
    (∀ a b : StepResult, a.merge b = b.merge a) ∧
    (∀ x y : ℚ,
      (StepResult.Slowdown x).merge (StepResult.Slowdown y) = StepResult.Slowdown (x + y)) ∧
    (∀ a : StepResult,
      StepResult.Done.merge a = StepResult.Done ∧ a.merge StepResult.Done = StepResult.Done) := by
  refine ⟨?_, ?_, ?_, ?_⟩
  · rintro (a | a) (b | b) (c | c) <;> simp [StepResult.merge, add_assoc]
  · rintro (a | a) (b | b) <;> simp [StepResult.merge, add_comm]
  · intro x y
    rfl
  · rintro (a | a) <;> simp [StepResult.merge]

theorem ratTrunc_le_zero_iff (q : ℚ) : ratTrunc q ≤ 0 ↔ q < 1 := by
  unfold ratTrunc
  by_cases h : 0 ≤ q
  · rw [if_pos h]
    constructor
    · intro hle
      have h1 : ⌊q⌋ < 1 := by omega
      have := Int.floor_lt.mp h1
      simpa using this
    · intro hq1
      have h1 : ⌊q⌋ < 1 := Int.floor_lt.mpr (by exact_mod_cast hq1)
      omega
  · rw [if_neg h]
    push_neg at h
    constructor
    · intro _
      linarith
    · intro _
      have h0 : (0 : ℤ) ≤ ⌊-q⌋ := Int.floor_nonneg.mpr (by linarith)
      omega

theorem ratTrunc_eq_floor_of_nonneg (q : ℚ) (h : 0 ≤ q) : ratTrunc q = ⌊q⌋ := by
  unfold ratTrunc
  exact if_pos h

/-- C4: one scheduler iteration, with `F = floor((now_tick - prev_tick) /
interval)`: if `F <= 0` the loop requests a sleep until
`prev_tick + interval` (as whole milliseconds), advances `prev_tick` by
exactly one (truncated) interval — the accelerate policy being disabled —
and runs exactly 1 logical tick; if `F > 5` it runs exactly 5 logical ticks
and sets `prev_tick = now_tick`; otherwise it runs exactly `F` logical
ticks and sets `prev_tick = now_tick`.  (The code computes the ratio with
an `as i32` truncation, which agrees with the claim's floor formulation in
every branch.) -/
theorem mainloop_frame_schedule (prev now : ℕ) (interval : ℚ) :
    (⌊((now : ℚ) - (prev : ℚ)) / interval⌋ ≤ 0 →
      frameAdvance prev now interval =
        (1, prev + ⌊interval⌋₊, some (prev + ⌊interval⌋₊ - now))) ∧
    (5 < ⌊((now : ℚ) - (prev : ℚ)) / interval⌋ →
      frameAdvance prev now interval = (5, now, none)) ∧
    (∀ k : ℕ, 0 < k → k ≤ 5 → ⌊((now : ℚ) - (prev : ℚ)) / interval⌋ = (k : ℤ) →
      frameAdvance prev now interval = (k, now, none)) := by
  set q : ℚ := ((now : ℚ) - (prev : ℚ)) / interval with hq
  refine ⟨?_, ?_, ?_⟩
  · intro h
    have hq1 : q < 1 := by
      have h1 : ⌊q⌋ < 1 := by omega
      simpa using Int.floor_lt.mp h1
    have ht : ratTrunc q ≤ 0 := (ratTrunc_le_zero_iff q).mpr hq1
    simp only [frameAdvance, ← hq]
    rw [if_pos ht]
  · intro h
    have hq0 : 0 ≤ q := by
      have : (5 : ℚ) ≤ q := by
        have := Int.le_floor.mp (le_of_lt h)
        simpa using this
      linarith
    have ht : ratTrunc q = ⌊q⌋ := ratTrunc_eq_floor_of_nonneg q hq0
    have hnle : ¬ ratTrunc q ≤ 0 := by
      rw [ht]
      omega
    simp only [frameAdvance, ← hq]
    rw [if_neg hnle, if_pos (by rw [ht]; exact h)]
    norm_num [MAX_SKIP_FRAME]
    decide
  · intro k hk0 hk5 hfl
    have hq0 : 0 ≤ q := by
      have h1 : (1 : ℤ) ≤ ⌊q⌋ := by omega
      have := Int.le_floor.mp h1
      have h2 : (1 : ℚ) ≤ q := by simpa using this
      linarith
    have ht : ratTrunc q = (k : ℤ) := by
      rw [ratTrunc_eq_floor_of_nonneg q hq0, hfl]
    have hnle : ¬ ratTrunc q ≤ 0 := by
      rw [ht]
      omega
    have hngt : ¬ ratTrunc q > MAX_SKIP_FRAME := by
      rw [ht]
      simp only [MAX_SKIP_FRAME]
      omega
    simp only [frameAdvance, ← hq]
    rw [if_neg hnle, if_neg hngt, ht]
    simp

/-- Witness for `mainloop_frame_schedule`: at `prev = 0`, `now = 10`,
`interval = 16` the ratio floors to 0, so one tick runs, the loop sleeps
6 ms and `prev_tick` advances to 16. -/
theorem mainloop_frame_schedule_witness :
    (⌊((10 : ℚ) - (0 : ℚ)) / 16⌋ ≤ 0) ∧
    frameAdvance 0 10 16 = (1, 0 + ⌊(16 : ℚ)⌋₊, some (0 + ⌊(16 : ℚ)⌋₊ - 10)) :=
  ⟨by norm_num, (mainloop_frame_schedule 0 10 16).1 (by norm_num)⟩

/-- C7: the interval adaptation: above the start ratio the new interval is
`interval + (min(slowdown, 1.75) * base - interval) * 0.1`, otherwise
`interval + (base - interval) * 0.08`; and under a constant per-tick
slowdown of 2.0 the interval sequence strictly increases toward
`1.75 * base` without ever reaching or overshooting it. -/
theorem mainloop_interval_adaptation :
    (∀ interval slowdown : ℚ, SLOWDOWN_START_RATIO < slowdown →
      calculateInterval interval slowdown =
        interval + (min slowdown SLOWDOWN_MAX_RATIO * INTERVAL_BASE - interval) * (1 / 10)) ∧
    (∀ interval slowdown : ℚ, slowdown ≤ SLOWDOWN_START_RATIO →
      calculateInterval interval slowdown =
        interval + (INTERVAL_BASE - interval) * (2 / 25)) ∧
    (∀ n : ℕ, intervalSeq n < intervalSeq (n + 1)) ∧
    (∀ n : ℕ, intervalSeq n < SLOWDOWN_MAX_RATIO * INTERVAL_BASE) := by
  have hstep : ∀ s : ℚ, calculateInterval s 2 = s + (28 - s) * (1 / 10) := by
    intro s
    rw [calculateInterval]
    rw [if_pos (by norm_num [ SLOWDOWN_START_RATIO])]
    norm_num [ SLOWDOWN_START_RATIO, SLOWDOWN_MAX_RATIO, INTERVAL_BASE, min_def]
  have hbounds : ∀ n : ℕ, 16 ≤ intervalSeq n ∧ intervalSeq n < 28 := by
    intro n
    induction n with
    | zero => norm_num [intervalSeq, INTERVAL_BASE]
    | succ m ih =>
      rw [intervalSeq, hstep]
      constructor
      · linarith [ih.1, ih.2]
      · linarith [ih.2]
  refine ⟨?_, ?_, ?_, ?_⟩
  · intro interval slowdown hs
    rw [calculateInterval, if_pos hs]
    rw [ SLOWDOWN_START_RATIO, div_one]
  · intro interval slowdown hs
    rw [calculateInterval, if_neg (not_lt.mpr hs)]
  · intro n
    have h1 := (hbounds n).2
    rw [intervalSeq, hstep]
    linarith
  · intro n
    have h1 := (hbounds n).2
    norm_num [ SLOWDOWN_MAX_RATIO, INTERVAL_BASE]
    linarith

/-- Witness for `mainloop_interval_adaptation` at `interval = 16`,
`slowdown = 2`. -/
theorem mainloop_interval_adaptation_witness :
    ( SLOWDOWN_START_RATIO < (2 : ℚ)) ∧
    calculateInterval 16 2 =
      16 + (min 2 SLOWDOWN_MAX_RATIO * INTERVAL_BASE - 16) * (1 / 10) :=
  ⟨by norm_num [ SLOWDOWN_START_RATIO],
    mainloop_interval_adaptation.1 16 2 (by norm_num [ SLOWDOWN_START_RATIO])⟩

theorem swapRemove_drop_perm {α : Type _} (l : List α) (idx : ℕ) (h : idx < l.length) :
    (l[idx] :: (swapRemove l idx).drop idx).Perm (l.drop idx) := by
  have hne : l ≠ [] := List.ne_nil_of_length_pos (by omega)
  rw [List.drop_eq_getElem_cons h]
  refine List.Perm.cons _ ?_
  rw [swapRemove, List.getLast?_eq_getLast l hne]
  by_cases hlast : idx + 1 < l.length
  · have hdl : idx < l.dropLast.length := by
      simp only [List.length_dropLast]
      omega
    rw [List.drop_set, if_neg (lt_irrefl idx)]
    simp only [Nat.sub_self]
    rw [List.drop_eq_getElem_cons hdl, List.set_cons_zero]
    have hcomm : l.dropLast.drop (idx + 1) = (l.drop (idx + 1)).dropLast := by
      rw [List.dropLast_eq_take, List.drop_take, List.dropLast_eq_take, List.length_drop]
      congr 1
      omega
    have hdne : l.drop (idx + 1) ≠ [] := by
      intro hc
      rw [List.drop_eq_nil_iff] at hc
      omega
    have hgl : (l.drop (idx + 1)).getLast hdne = l.getLast hne := by
      have e1 := List.getLast?_eq_getLast (l.drop (idx + 1)) hdne
      have e2 := List.getLast?_eq_getLast l hne
      have e3 : (l.drop (idx + 1)).getLast? = l.getLast? := by
        rw [List.getLast?_eq_getElem?, List.getLast?_eq_getElem?, List.getElem?_drop,
          List.length_drop]
        congr 1
        omega
      rw [e1, e2] at e3
      exact Option.some_injective _ e3
    rw [hcomm, ← hgl, ← List.singleton_append]
    conv_rhs => rw [← List.dropLast_append_getLast hdne]
    exact List.perm_append_comm
  · have h2 : (l.dropLast.set idx (l.getLast hne)).drop idx = [] :=
      List.drop_eq_nil_of_le (by simp only [List.length_set, List.length_dropLast]; omega)
    have h3 : l.drop (idx + 1) = [] := List.drop_eq_nil_of_le (by omega)
    rw [h2, h3]

theorem runAux_remove_eq {α ζ : Type _} (f : ζ → α → ζ × α × PoolRemoval) (z : ζ)
    (pool inuse : List α) (idx : ℕ) (log : List α) (h : idx < inuse.length)
    (hR : (f z (inuse.get ⟨idx, h⟩)).2.2 = PoolRemoval.Remove) :
    runAux f z pool inuse idx log =
      runAux f (f z (inuse.get ⟨idx, h⟩)).1
        (vecPush pool (f z (inuse.get ⟨idx, h⟩)).2.1)
        (swapRemove (inuse.set idx (f z (inuse.get ⟨idx, h⟩)).2.1) idx) idx
        (vecPush log (inuse.get ⟨idx, h⟩)) := by
  rw [runAux]
  simp only [dif_pos h, hR]

theorem runAux_keep_eq {α ζ : Type _} (f : ζ → α → ζ × α × PoolRemoval) (z : ζ)
    (pool inuse : List α) (idx : ℕ) (log : List α) (h : idx < inuse.length)
    (hK : (f z (inuse.get ⟨idx, h⟩)).2.2 = PoolRemoval.Keep) :
    runAux f z pool inuse idx log =
      runAux f (f z (inuse.get ⟨idx, h⟩)).1 pool
        (inuse.set idx (f z (inuse.get ⟨idx, h⟩)).2.1) (idx + 1)
        (vecPush log (inuse.get ⟨idx, h⟩)) := by
  rw [runAux]
  simp only [dif_pos h, hK]

theorem runAux_base_eq {α ζ : Type _} (f : ζ → α → ζ × α × PoolRemoval) (z : ζ)
    (pool inuse : List α) (idx : ℕ) (log : List α) (h : ¬ idx < inuse.length) :
    runAux f z pool inuse idx log = (z, pool, inuse, log) := by
  rw [runAux]
  simp only [dif_neg h]

theorem runAux_spec {α ζ : Type _} (f : ζ → α → ζ × α × PoolRemoval) (z : ζ)
    (pool inuse : List α) (idx : ℕ) (log : List α) :
    ∃ removed : List α,
      (runAux f z pool inuse idx log).2.1 = pool ++ removed ∧
      (runAux f z pool inuse idx log).2.2.1.length + removed.length = inuse.length ∧
      ((runAux f z pool inuse idx log).2.2.2).Perm (log ++ inuse.drop idx) := by
  induction z, pool, inuse, idx, log using runAux.induct (f := f) with
  | case1 z pool inuse idx log h v r inuse2 hR ih =>
    unfold_let inuse2 r v at hR ih
    obtain ⟨rm, ih1, ih2, ih3⟩ := ih
    rw [runAux_remove_eq f z pool inuse idx log h hR]
    refine ⟨(f z (inuse.get ⟨idx, h⟩)).2.1 :: rm, ?_, ?_, ?_⟩
    · rw [ih1, vecPush, List.append_assoc, List.singleton_append]
    · have hset : (inuse.set idx (f z (inuse.get ⟨idx, h⟩)).2.1).length = inuse.length :=
        List.length_set ..
      have hne : inuse.set idx (f z (inuse.get ⟨idx, h⟩)).2.1 ≠ [] :=
        List.ne_nil_of_length_pos (by omega)
      rw [swapRemove_length _ idx hne] at ih2
      simp only [List.length_cons]
      omega
    · refine ih3.trans ?_
      rw [vecPush, List.append_assoc, List.singleton_append]
      refine List.Perm.append_left log ?_
      have hset : (inuse.set idx (f z (inuse.get ⟨idx, h⟩)).2.1).length = inuse.length :=
        List.length_set ..
      have h' : idx < (inuse.set idx (f z (inuse.get ⟨idx, h⟩)).2.1).length := by omega
      have hkey := swapRemove_drop_perm (inuse.set idx (f z (inuse.get ⟨idx, h⟩)).2.1) idx h'
      rw [List.getElem_set_self] at hkey
      have hdropset : (inuse.set idx (f z (inuse.get ⟨idx, h⟩)).2.1).drop (idx + 1)
          = inuse.drop (idx + 1) := by
        rw [List.drop_set, if_pos (Nat.lt_succ_self idx)]
      rw [List.drop_eq_getElem_cons h', List.getElem_set_self, hdropset] at hkey
      have hinner := hkey.cons_inv
      rw [List.drop_eq_getElem_cons h]
      exact List.Perm.cons _ hinner
  | case2 z pool inuse idx log h v r inuse2 hK ih =>
    unfold_let inuse2 r v at hK ih
    obtain ⟨rm, ih1, ih2, ih3⟩ := ih
    rw [runAux_keep_eq f z pool inuse idx log h hK]
    refine ⟨rm, ih1, ?_, ?_⟩
    · rw [List.length_set] at ih2
      exact ih2
    · refine ih3.trans ?_
      have hdropset : (inuse.set idx (f z (inuse.get ⟨idx, h⟩)).2.1).drop (idx + 1)
          = inuse.drop (idx + 1) := by
        rw [List.drop_set, if_pos (Nat.lt_succ_self idx)]
      rw [hdropset, vecPush, List.append_assoc, List.singleton_append,
        List.drop_eq_getElem_cons h]
      exact List.Perm.refl _
  | case3 z pool inuse idx log h =>
    rw [runAux_base_eq f z pool inuse idx log h]
    refine ⟨[], by simp, by simp, ?_⟩
    rw [List.drop_eq_nil_of_le (by omega), List.append_nil]

theorem runRefAux_conservation {α ζ : Type _} (f : ζ → α → List α → ζ × α × PoolRemoval)
    (z : ζ) (pool inuse : List α) (idx : ℕ) :
    (runRefAux f z pool inuse idx).2.1.length + (runRefAux f z pool inuse idx).2.2.length
      = pool.length + inuse.length := by
  induction z, pool, inuse, idx using runRefAux.induct (f := f) with
  | case1 z pool inuse idx h v others r inuse2 hR ih =>
    unfold_let inuse2 r others v at hR ih
    rw [runRefAux]
    simp only [dif_pos h, hR]
    have hset : (inuse.set idx
        (f z (inuse.get ⟨idx, h⟩) (inuse.take idx ++ inuse.drop (idx + 1))).2.1).length
        = inuse.length := List.length_set ..
    have hne : inuse.set idx
        (f z (inuse.get ⟨idx, h⟩) (inuse.take idx ++ inuse.drop (idx + 1))).2.1 ≠ [] :=
      List.ne_nil_of_length_pos (by omega)
    have hvp : (vecPush pool
        (f z (inuse.get ⟨idx, h⟩) (inuse.take idx ++ inuse.drop (idx + 1))).2.1).length
        = pool.length + 1 := by
      simp [vecPush]
    rw [swapRemove_length _ idx hne, hset, hvp] at ih
    omega
  | case2 z pool inuse idx h v others r inuse2 hK ih =>
    unfold_let inuse2 r others v at hK ih
    rw [runRefAux]
    simp only [dif_pos h, hK]
    rw [List.length_set] at ih
    exact ih
  | case3 z pool inuse idx h =>
    rw [runRefAux]
    simp only [dif_neg h]

theorem expireAux_conservation {α : Type _} (pred : α → PoolRemoval)
    (pool inuse : List α) (idx : ℕ) :
    (expireAux pred pool inuse idx).1.length + (expireAux pred pool inuse idx).2.length
      = pool.length + inuse.length := by
  induction pool, inuse, idx using expireAux.induct pred with
  | case1 pool inuse idx h hR ih =>
    rw [expireAux]
    simp only [dif_pos h, if_pos hR]
    have hne : inuse ≠ [] := List.ne_nil_of_length_pos (by omega)
    have hvp : (vecPush pool (inuse.get ⟨idx, h⟩)).length = pool.length + 1 := by
      simp [vecPush]
    rw [swapRemove_length _ idx hne, hvp] at ih
    omega
  | case2 pool inuse idx h hK ih =>
    rw [expireAux]
    simp only [dif_pos h, if_neg hK]
    exact ih
  | case3 pool inuse idx h =>
    rw [expireAux]
    simp only [dif_neg h]

theorem vecPop_some {α : Type _} {l rest : List α} {x : α}
    (h : vecPop l = some (rest, x)) : rest = l.dropLast ∧ l ≠ [] := by
  unfold vecPop at h
  cases hgl : l.getLast? with
  | none =>
    rw [hgl] at h
    cases h
  | some y =>
    rw [hgl] at h
    refine ⟨?_, ?_⟩
    · simp only [Option.some.injEq, Prod.mk.injEq] at h
      exact h.1.symm
    · intro hc
      rw [hc] at hgl
      simp at hgl

/-- C1: for every pool constructed with capacity `n > 0` the invariant
`len(free) + len(in_use) = n` holds after construction, and the total
`len(free) + len(in_use)` is preserved by every operation — `get`,
`get_force`, `clear`, `run`, `run_ref` and `expire` — so the capacity never
grows or shrinks after construction. -/
theorem pool_size_invariant {α ζ : Type _} :
    (∀ (n : ℕ) (ctor : Unit → α) (p : Pool α), Pool.new n ctor = some p → p.size = n) ∧
    (∀ (n : ℕ) (ctor : ℕ → α) (p : Pool α), Pool.new_indexed n ctor = some p → p.size = n) ∧
    (∀ (p p' : Pool α) (i : ℕ), Pool.get p = some (p', i) → p'.size = p.size) ∧
    (∀ (p p' : Pool α) (i : ℕ), Pool.get_force p = some (p', i) → p'.size = p.size) ∧
    (∀ p : Pool α, (Pool.clear p).size = p.size) ∧
    (∀ (p : Pool α) (f : ζ → α → ζ × α × PoolRemoval) (z : ζ),
      (Pool.run p f z).size = p.size) ∧
    (∀ (p : Pool α) (f : ζ → α → List α → ζ × α × PoolRemoval) (z : ζ),
      (Pool.run_ref p f z).size = p.size) ∧
    (∀ (p : Pool α) (pred : α → PoolRemoval), (Pool.expire p pred).size = p.size) := by
  refine ⟨?_, ?_, ?_, ?_, ?_, ?_, ?_, ?_⟩
  · intro n ctor p h
    rw [Pool.new] at h
    by_cases hn : n = 0
    · rw [if_pos hn] at h
      cases h
    · rw [if_neg hn] at h
      simp only [Option.some.injEq] at h
      rw [← h]
      simp [Pool.size]
  · intro n ctor p h
    rw [Pool.new_indexed] at h
    by_cases hn : n = 0
    · rw [if_pos hn] at h
      cases h
    · rw [if_neg hn] at h
      simp only [Option.some.injEq] at h
      rw [← h]
      simp [Pool.size]
  · intro p p' i h
    rw [Pool.get] at h
    cases hv : vecPop p.pool with
    | none =>
      rw [hv] at h
      cases h
    | some pr =>
      rw [hv] at h
      obtain ⟨hrest, hne⟩ := vecPop_some hv
      simp only [Option.some.injEq, Prod.mk.injEq] at h
      have hp' : p' = { pool := pr.1, in_use := vecPush p.in_use pr.2 } := h.1.symm
      have hlen := List.length_pos.mpr hne
      rw [hp', hrest]
      simp only [Pool.size, List.length_dropLast, vecPush, List.length_append,
        List.length_cons, List.length_nil]
      omega
  · intro p p' i h
    rw [Pool.get_force] at h
    cases hv : vecPop p.pool with
    | none =>
      rw [hv] at h
      cases hu : p.in_use with
      | nil =>
        rw [hu] at h
        cases h
      | cons y ys =>
        rw [hu] at h
        simp only [Option.some.injEq, Prod.mk.injEq] at h
        rw [← h.1]
    | some pr =>
      rw [hv] at h
      obtain ⟨hrest, hne⟩ := vecPop_some hv
      simp only [Option.some.injEq, Prod.mk.injEq] at h
      have hp' : p' = { pool := pr.1, in_use := vecPush p.in_use pr.2 } := h.1.symm
      have hlen := List.length_pos.mpr hne
      rw [hp', hrest]
      simp only [Pool.size, List.length_dropLast, vecPush, List.length_append,
        List.length_cons, List.length_nil]
      omega
  · intro p
    simp [Pool.clear, Pool.size]
  · intro p f z
    obtain ⟨removed, h1, h2, _⟩ := runAux_spec f z p.pool p.in_use 0 []
    simp only [Pool.run, Pool.size]
    rw [h1, List.length_append]
    omega
  · intro p f z
    have h := runRefAux_conservation f z p.pool p.in_use 0
    simp only [Pool.run_ref, Pool.size]
    omega
  · intro p pred
    have h := expireAux_conservation pred p.pool p.in_use 0
    simp only [Pool.expire, Pool.size]
    omega

/-- Witness for `pool_size_invariant`: a `get` on a concrete one-free-slot
pool preserves the total. -/
theorem pool_size_invariant_witness :
    (Pool.get (Pool.mk [3] [] : Pool ℕ) = some (Pool.mk [] [3], 0)) ∧
    (Pool.mk [] [3] : Pool ℕ).size = (Pool.mk [3] [] : Pool ℕ).size :=
  ⟨rfl, (@pool_size_invariant ℕ Unit).2.2.1 (Pool.mk [3] []) (Pool.mk [] [3]) 0 rfl⟩

/-- C2: the `run` scan: on `Remove` the element at the current index is
evicted by swap-with-last and pushed onto the free list and the index is
not advanced; on `Keep` the index advances; consequently a full `run`
appends exactly the evicted elements `S` to the free list (so `free` grows
by `|S|` while `in_use` shrinks by `|S|`), and the ghost visit log is a
permutation of the initial in-use list — every in-use element, in
particular every element remaining in use, is visited exactly once. -/
theorem pool_run_eviction_counts {α ζ : Type _} :
    (∀ (f : ζ → α → ζ × α × PoolRemoval) (z : ζ) (pool inuse : List α) (idx : ℕ)
      (log : List α) (h : idx < inuse.length),
      (f z (inuse.get ⟨idx, h⟩)).2.2 = PoolRemoval.Remove →
      runAux f z pool inuse idx log =
        runAux f (f z (inuse.get ⟨idx, h⟩)).1
          (vecPush pool (f z (inuse.get ⟨idx, h⟩)).2.1)
          (swapRemove (inuse.set idx (f z (inuse.get ⟨idx, h⟩)).2.1) idx) idx
          (vecPush log (inuse.get ⟨idx, h⟩))) ∧
    (∀ (f : ζ → α → ζ × α × PoolRemoval) (z : ζ) (pool inuse : List α) (idx : ℕ)
      (log : List α) (h : idx < inuse.length),
      (f z (inuse.get ⟨idx, h⟩)).2.2 = PoolRemoval.Keep →
      runAux f z pool inuse idx log =
        runAux f (f z (inuse.get ⟨idx, h⟩)).1 pool
          (inuse.set idx (f z (inuse.get ⟨idx, h⟩)).2.1) (idx + 1)
          (vecPush log (inuse.get ⟨idx, h⟩))) ∧
    (∀ (p : Pool α) (f : ζ → α → ζ × α × PoolRemoval) (z : ζ),
      ∃ removed : List α,
        (runAux f z p.pool p.in_use 0 []).2.1 = p.pool ++ removed ∧
        (runAux f z p.pool p.in_use 0 []).2.2.1.length + removed.length
          = p.in_use.length ∧
        Pool.run p f z =
          Pool.mk (runAux f z p.pool p.in_use 0 []).2.1
            (runAux f z p.pool p.in_use 0 []).2.2.1 ∧
        ((runAux f z p.pool p.in_use 0 []).2.2.2).Perm p.in_use) := by
  refine ⟨runAux_remove_eq, runAux_keep_eq, ?_⟩
  intro p f z
  obtain ⟨removed, h1, h2, h3⟩ := runAux_spec f z p.pool p.in_use 0 []
  refine ⟨removed, h1, h2, rfl, ?_⟩
  simpa using h3

/-- Witness for `pool_run_eviction_counts`: the Remove one-step equation at
a concrete singleton in-use list. -/
theorem pool_run_eviction_counts_witness :
    ((0 : ℕ) < ([5] : List ℕ).length ∧
      ((fun (z : Unit) (x : ℕ) => (z, x, PoolRemoval.Remove)) ()
        (([5] : List ℕ).get ⟨0, by decide⟩)).2.2 = PoolRemoval.Remove) ∧
    runAux (fun (z : Unit) (x : ℕ) => (z, x, PoolRemoval.Remove)) () [] [5] 0 [] =
      runAux (fun (z : Unit) (x : ℕ) => (z, x, PoolRemoval.Remove))
        (((fun (z : Unit) (x : ℕ) => (z, x, PoolRemoval.Remove)) ()
          (([5] : List ℕ).get ⟨0, by decide⟩)).1)
        (vecPush []
          (((fun (z : Unit) (x : ℕ) => (z, x, PoolRemoval.Remove)) ()
            (([5] : List ℕ).get ⟨0, by decide⟩)).2.1))
        (swapRemove (([5] : List ℕ).set 0
          (((fun (z : Unit) (x : ℕ) => (z, x, PoolRemoval.Remove)) ()
            (([5] : List ℕ).get ⟨0, by decide⟩)).2.1)) 0) 0
        (vecPush [] (([5] : List ℕ).get ⟨0, by decide⟩)) :=
  ⟨⟨by decide, rfl⟩,
    (@pool_run_eviction_counts ℕ Unit).1
      (fun (z : Unit) (x : ℕ) => (z, x, PoolRemoval.Remove)) () [] [5] 0 []
      (by decide) rfl⟩

theorem stepsLoop_trace {σ E ι ε : Type _} (g : Game σ E ι ε) (input : ι) :
    ∀ (n : ℕ) (s : σ),
      ((stepsLoop g input n s).1.count Call.stepCall = (stepsLoop g input n s).1.length ∧
        (stepsLoop g input n s).1.count Call.drawCall = 0 ∧
        (stepsLoop g input n s).1.count Call.quitCall = 0) ∧
      (∀ results s2, (stepsLoop g input n s).2 = Except.ok (results, s2) →
        (stepsLoop g input n s).1.length = n ∧ results.length = n) := by
  intro n
  induction n with
  | zero =>
    intro s
    refine ⟨⟨rfl, rfl, rfl⟩, ?_⟩
    intro results s2 h
    simp only [stepsLoop, Except.ok.injEq, Prod.mk.injEq] at h
    refine ⟨rfl, ?_⟩
    rw [← h.1]
    rfl
  | succ m ih =>
    intro s
    cases hstep : g.step s input with
    | error e =>
      refine ⟨⟨?_, ?_, ?_⟩, ?_⟩
      · simp [stepsLoop, hstep]
      · simp [stepsLoop, hstep]
      · simp [stepsLoop, hstep]
      · intro results s2 h
        simp [stepsLoop, hstep] at h
    | ok rs =>
      have ihs := ih rs.2
      refine ⟨⟨?_, ?_, ?_⟩, ?_⟩
      · simp only [stepsLoop, hstep, List.count_cons, List.length_cons]
        rw [ihs.1.1]
        simp
      · simp only [stepsLoop, hstep, List.count_cons]
        rw [ihs.1.2.1]
        simp
      · simp only [stepsLoop, hstep, List.count_cons]
        rw [ihs.1.2.2]
        simp
      · intro results s2 h
        simp only [stepsLoop, hstep] at h
        cases hrest : (stepsLoop g input m rs.2).2 with
        | error e =>
          rw [hrest] at h
          cases h
        | ok rr =>
          rw [hrest] at h
          simp only [Except.ok.injEq, Prod.mk.injEq] at h
          have hlen := (ihs.2 rr.1 rr.2 (by rw [hrest])).1
          have hrlen := (ihs.2 rr.1 rr.2 (by rw [hrest])).2
          constructor
          · simp only [stepsLoop, hstep, List.length_cons]
            omega
          · rw [← h.1]
            simp only [List.length_cons]
            omega

theorem handleEventPart_trace {σ E ι ε : Type _} (g : Game σ E ι ε)
    (ev : Option (SdlEvent ε)) (s : σ) :
    (handleEventPart g ev s).1.count Call.stepCall = 0 ∧
    (handleEventPart g ev s).1.count Call.drawCall = 0 ∧
    (handleEventPart g ev s).1.count Call.quitCall = 0 := by
  cases ev with
  | none => simp [handleEventPart]
  | some e =>
    cases e with
    | quitEvent => simp [handleEventPart]
    | otherEvent x =>
      cases hg : g.handleEvent s (SdlEvent.otherEvent x) with
      | error er => simp [handleEventPart, hg]
      | ok bs => simp [handleEventPart, hg]

theorem foldl_merge_done_acc (l : List StepResult) :
    l.foldl StepResult.merge StepResult.Done = StepResult.Done := by
  induction l with
  | nil => rfl
  | cons x xs ih =>
    rw [List.foldl_cons,
      show StepResult.merge StepResult.Done x = StepResult.Done by cases x <;> rfl]
    exact ih

theorem foldl_merge_done {l : List StepResult} (hd : StepResult.Done ∈ l)
    (acc : StepResult) : l.foldl StepResult.merge acc = StepResult.Done := by
  induction l generalizing acc with
  | nil => cases hd
  | cons x xs ih =>
    rcases List.mem_cons.mp hd with rfl | hd'
    · rw [List.foldl_cons, show StepResult.merge acc StepResult.Done = StepResult.Done by
        cases acc <;> rfl]
      exact foldl_merge_done_acc xs
    · rw [List.foldl_cons]
      exact ih hd' _

/-- C6: in a scheduler frame in which some scheduled tick's `step` returns
`Done` and no lifecycle call errors, all remaining scheduled ticks still run
(the tick trace holds exactly the scheduled number of `step` calls) and the
results are folded to `Done`; `draw` is invoked exactly once for the frame;
the loop exits right after that `draw`; and `quit` is then invoked exactly
once. -/
theorem mainloop_done_frame {σ E ι ε : Type _} (g : Game σ E ι ε)
    (ticksAt : ℕ → ℕ) (events : ℕ → Option (SdlEvent ε)) (inputAt : ℕ → ι)
    (i fuel : ℕ) (s s1 s2 s3 s4 : σ) (b0 : Bool) (prev : ℕ) (interval : ℚ)
    (trE trS : List Call) (results : List StepResult)
    (hE : handleEventPart g (events i) s = (trE, Except.ok (b0, s1)))
    (hS : stepsLoop g (inputAt i) (frameAdvance prev (ticksAt i) interval).1 s1
        = (trS, Except.ok (results, s2)))
    (hD : StepResult.Done ∈ results)
    (hDr : g.draw s2 = Except.ok s3)
    (hQ : g.quit s3 = Except.ok s4) :
    (∃ q : σ × ℕ × ℚ × Bool,
      loopBody g (events i) (ticksAt i) (inputAt i) s prev interval
        = (trE ++ trS ++ [Call.drawCall], Except.ok q) ∧ q.1 = s3 ∧ q.2.2.2 = true) ∧
    trS.count Call.stepCall = (frameAdvance prev (ticksAt i) interval).1 ∧
    (trE ++ trS ++ [Call.drawCall]).count Call.drawCall = 1 ∧
    results.foldl StepResult.merge (StepResult.Slowdown 0) = StepResult.Done ∧
    runLoop g ticksAt events inputAt (fuel + 1) s prev interval i
      = (trE ++ trS ++ [Call.drawCall], Except.ok (some s3)) ∧
    loopThenQuit g ticksAt events inputAt (fuel + 1) s prev interval i
      = ((trE ++ trS ++ [Call.drawCall]) ++ [Call.quitCall], Except.ok (some s4)) ∧
    ((trE ++ trS ++ [Call.drawCall]) ++ [Call.quitCall]).count Call.quitCall = 1 := by
  have hfold := foldl_merge_done hD (StepResult.Slowdown 0)
  have hTr := stepsLoop_trace g (inputAt i) (frameAdvance prev (ticksAt i) interval).1 s1
  rw [hS] at hTr
  simp only at hTr
  have hlen := hTr.2 results s2 rfl
  have hEtr := handleEventPart_trace g (events i) s
  rw [hE] at hEtr
  simp only at hEtr
  have hLB : loopBody g (events i) (ticksAt i) (inputAt i) s prev interval
      = (trE ++ trS ++ [Call.drawCall],
        Except.ok (s3, (frameAdvance prev (ticksAt i) interval).2.1,
          calculateInterval interval
            (0 / ((frameAdvance prev (ticksAt i) interval).1 : ℚ)), true)) := by
    simp only [loopBody, hE, hS, hfold, hDr, NO_WAIT, Bool.false_eq_true, if_false]
  have hRL : runLoop g ticksAt events inputAt (fuel + 1) s prev interval i
      = (trE ++ trS ++ [Call.drawCall], Except.ok (some s3)) := by
    simp only [runLoop, hLB]
  refine ⟨⟨_, hLB, rfl, rfl⟩, ?_, ?_, hfold, hRL, ?_, ?_⟩
  · rw [hTr.1.1, hlen.1]
  · simp only [List.count_append, hEtr.2.1, hTr.1.2.1]
    decide
  · simp only [loopThenQuit, hRL, hQ]
  · simp only [List.count_append, hEtr.2.2, hTr.1.2.2]
    decide

/-- Witness for `mainloop_done_frame`: a mock game whose every `step`
reports `Done`, a clock stuck at 100 ms, no events: 5 ticks are scheduled
in the first frame, all run, draw happens once, and `quit` runs exactly
once after the frame. -/
theorem mainloop_done_frame_witness :
    (handleEventPart doneGame (noEvents 0) 0 = ([], Except.ok (false, 0)) ∧
      stepsLoop doneGame (unitInput 0) (frameAdvance 0 (ticks100 0) 16).1 0
        = ([Call.stepCall, Call.stepCall, Call.stepCall, Call.stepCall, Call.stepCall],
          Except.ok ([StepResult.Done, StepResult.Done, StepResult.Done,
            StepResult.Done, StepResult.Done], 5)) ∧
      StepResult.Done ∈ [StepResult.Done, StepResult.Done, StepResult.Done,
        StepResult.Done, StepResult.Done] ∧
      doneGame.draw 5 = Except.ok 15 ∧
      doneGame.quit 15 = Except.ok 115) ∧
    loopThenQuit doneGame ticks100 noEvents unitInput (0 + 1) 0 0 16 0
      = ((([] ++ [Call.stepCall, Call.stepCall, Call.stepCall, Call.stepCall,
          Call.stepCall] ++ [Call.drawCall]) ++ [Call.quitCall]),
        Except.ok (some 115)) ∧
    ((([] : List Call) ++ [Call.stepCall, Call.stepCall, Call.stepCall, Call.stepCall,
        Call.stepCall] ++ [Call.drawCall]) ++ [Call.quitCall]).count Call.quitCall = 1 := by
  have hFA : frameAdvance 0 (ticks100 0) 16 = (5, 100, none) := by
    norm_num [frameAdvance, ratTrunc, MAX_SKIP_FRAME, ticks100]
    decide
  have hE : handleEventPart doneGame (noEvents 0) 0 = ([], Except.ok (false, 0)) := rfl
  have hS : stepsLoop doneGame (unitInput 0) (frameAdvance 0 (ticks100 0) 16).1 0
      = ([Call.stepCall, Call.stepCall, Call.stepCall, Call.stepCall, Call.stepCall],
        Except.ok ([StepResult.Done, StepResult.Done, StepResult.Done,
          StepResult.Done, StepResult.Done], 5)) := by
    rw [hFA]
    rfl
  have hD : StepResult.Done ∈ [StepResult.Done, StepResult.Done, StepResult.Done,
      StepResult.Done, StepResult.Done] := by decide
  have hDr : doneGame.draw 5 = Except.ok 15 := rfl
  have hQ : doneGame.quit 15 = Except.ok 115 := rfl
  have h := mainloop_done_frame doneGame ticks100 noEvents unitInput 0 0 0 0 5 15 115
    false 0 16 [] [Call.stepCall, Call.stepCall, Call.stepCall, Call.stepCall, Call.stepCall]
    [StepResult.Done, StepResult.Done, StepResult.Done, StepResult.Done, StepResult.Done]
    hE hS hD hDr hQ
  exact ⟨⟨hE, hS, hD, hDr, hQ⟩, h.2.2.2.2.2.1, h.2.2.2.2.2.2⟩

theorem loopBody_no_quit {σ E ι ε : Type _} (g : Game σ E ι ε)
    (ev : Option (SdlEvent ε)) (now : ℕ) (input : ι) (s : σ) (prev : ℕ)
    (interval : ℚ) :
    (loopBody g ev now input s prev interval).1.count Call.quitCall = 0 := by
  rcases hE : handleEventPart g ev s with ⟨tr, res⟩
  have hEtr := handleEventPart_trace g ev s
  rw [hE] at hEtr
  simp only at hEtr
  cases res with
  | error e =>
    simp only [loopBody, hE]
    exact hEtr.2.2
  | ok bs =>
    obtain ⟨b0, s1⟩ := bs
    rcases hS : stepsLoop g input (frameAdvance prev now interval).1 s1 with ⟨trS, resS⟩
    have hStr := stepsLoop_trace g input (frameAdvance prev now interval).1 s1
    rw [hS] at hStr
    simp only at hStr
    cases resS with
    | error e =>
      simp only [loopBody, hE, hS]
      simp [List.count_append, hEtr.2.2, hStr.1.2.2]
    | ok rs =>
      obtain ⟨results, s2⟩ := rs
      cases hDr : g.draw s2 with
      | error e =>
        simp only [loopBody, hE, hS, hDr]
        simp [List.count_append, hEtr.2.2, hStr.1.2.2]
      | ok s3 =>
        simp only [loopBody, hE, hS, hDr]
        simp [List.count_append, hEtr.2.2, hStr.1.2.2]

theorem runLoop_no_quit {σ E ι ε : Type _} (g : Game σ E ι ε)
    (ticksAt : ℕ → ℕ) (events : ℕ → Option (SdlEvent ε)) (inputAt : ℕ → ι) :
    ∀ (fuel : ℕ) (s : σ) (prev : ℕ) (interval : ℚ) (i : ℕ),
      (runLoop g ticksAt events inputAt fuel s prev interval i).1.count Call.quitCall
        = 0 := by
  intro fuel
  induction fuel with
  | zero => intro s prev interval i; rfl
  | succ m ih =>
    intro s prev interval i
    rcases hLB : loopBody g (events i) (ticksAt i) (inputAt i) s prev interval
      with ⟨tr, res⟩
    have h0 := loopBody_no_quit g (events i) (ticksAt i) (inputAt i) s prev interval
    rw [hLB] at h0
    simp only at h0
    cases res with
    | error e =>
      simp only [runLoop, hLB]
      exact h0
    | ok q =>
      obtain ⟨s', p', i', d⟩ := q
      cases d with
      | true =>
        simp only [runLoop, hLB]
        exact h0
      | false =>
        simp only [runLoop, hLB]
        simp [List.count_append, h0, ih]

/-- C8: every lifecycle error is wrapped with the tag of its stage —
`Initialize`, `HandleEvent`, `StepGame`, `DrawFrame`, `Quit` — and
propagated unchanged to the caller with no retry; `quit` is invoked
(exactly once) after the loop exits via the terminal flag, but is not
invoked when an earlier stage already failed. -/
theorem mainloop_error_tagging {σ E ι ε : Type _} (g : Game σ E ι ε)
    (ticksAt : ℕ → ℕ) (events : ℕ → Option (SdlEvent ε)) (inputAt : ℕ → ι) :
    (∀ (s0 : σ) (e : E) (fuel : ℕ), g.init s0 = Except.error e →
      runGame g ticksAt events inputAt s0 fuel
        = ([Call.initCall], Except.error (GameStep.Initialize, e)) ∧
      ([Call.initCall] : List Call).count Call.quitCall = 0) ∧
    (∀ (i : ℕ) (s : σ) (prev : ℕ) (interval : ℚ) (x : ε) (e : E),
      events i = some (SdlEvent.otherEvent x) →
      g.handleEvent s (SdlEvent.otherEvent x) = Except.error e →
      loopBody g (events i) (ticksAt i) (inputAt i) s prev interval
        = ([Call.handleEventCall], Except.error (GameStep.HandleEvent, e))) ∧
    (∀ (i : ℕ) (s s1 : σ) (b0 : Bool) (trE : List Call) (prev : ℕ)
      (interval : ℚ) (e : E),
      handleEventPart g (events i) s = (trE, Except.ok (b0, s1)) →
      0 < (frameAdvance prev (ticksAt i) interval).1 →
      g.step s1 (inputAt i) = Except.error e →
      loopBody g (events i) (ticksAt i) (inputAt i) s prev interval
        = (trE ++ [Call.stepCall], Except.error (GameStep.StepGame, e))) ∧
    (∀ (i : ℕ) (s s1 s2 : σ) (b0 : Bool) (trE trS : List Call)
      (results : List StepResult) (prev : ℕ) (interval : ℚ) (e : E),
      handleEventPart g (events i) s = (trE, Except.ok (b0, s1)) →
      stepsLoop g (inputAt i) (frameAdvance prev (ticksAt i) interval).1 s1
        = (trS, Except.ok (results, s2)) →
      g.draw s2 = Except.error e →
      loopBody g (events i) (ticksAt i) (inputAt i) s prev interval
        = (trE ++ trS ++ [Call.drawCall], Except.error (GameStep.DrawFrame, e))) ∧
    (∀ (fuel i : ℕ) (s : σ) (prev : ℕ) (interval : ℚ) (tr : List Call)
      (err : GameStep × E),
      loopBody g (events i) (ticksAt i) (inputAt i) s prev interval
        = (tr, Except.error err) →
      loopThenQuit g ticksAt events inputAt (fuel + 1) s prev interval i
        = (tr, Except.error err) ∧ tr.count Call.quitCall = 0) ∧
    (∀ (fuel i : ℕ) (s s' : σ) (prev : ℕ) (interval : ℚ) (tr : List Call),
      runLoop g ticksAt events inputAt fuel s prev interval i
        = (tr, Except.ok (some s')) →
      (∀ e : E, g.quit s' = Except.error e →
        loopThenQuit g ticksAt events inputAt fuel s prev interval i
          = (tr ++ [Call.quitCall], Except.error (GameStep.Quit, e)) ∧
        (tr ++ [Call.quitCall]).count Call.quitCall = 1) ∧
      (∀ s'' : σ, g.quit s' = Except.ok s'' →
        loopThenQuit g ticksAt events inputAt fuel s prev interval i
          = (tr ++ [Call.quitCall], Except.ok (some s'')))) := by
  refine ⟨?_, ?_, ?_, ?_, ?_, ?_⟩
  · intro s0 e fuel h
    refine ⟨?_, by decide⟩
    simp only [runGame, h]
  · intro i s prev interval x e hev hhe
    simp only [loopBody, handleEventPart, hev, hhe]
  · intro i s s1 b0 trE prev interval e hE hpos hstep
    have hS : stepsLoop g (inputAt i) (frameAdvance prev (ticksAt i) interval).1 s1
        = ([Call.stepCall], Except.error (GameStep.StepGame, e)) := by
      obtain ⟨m, hm⟩ : ∃ m, (frameAdvance prev (ticksAt i) interval).1 = m + 1 :=
        ⟨(frameAdvance prev (ticksAt i) interval).1 - 1, by omega⟩
      rw [hm]
      simp [stepsLoop, hstep]
    simp only [loopBody, hE, hS]
  · intro i s s1 s2 b0 trE trS results prev interval e hE hS hDr
    simp only [loopBody, hE, hS, hDr]
  · intro fuel i s prev interval tr err hLB
    have h0 := loopBody_no_quit g (events i) (ticksAt i) (inputAt i) s prev interval
    rw [hLB] at h0
    simp only at h0
    refine ⟨?_, h0⟩
    simp only [loopThenQuit, runLoop, hLB]
  · intro fuel i s s' prev interval tr hRL
    have h0 := runLoop_no_quit g ticksAt events inputAt fuel s prev interval i
    rw [hRL] at h0
    simp only at h0
    constructor
    · intro e hqe
      refine ⟨?_, ?_⟩
      · simp only [loopThenQuit, hRL, hqe]
      · simp [List.count_append, h0]
    · intro s'' hq
      simp only [loopThenQuit, hRL, hq]

/-- Witness for `mainloop_error_tagging`: concrete mock games failing at
each lifecycle stage, under a clock stuck at 100 ms. -/
theorem mainloop_error_tagging_witness :
    (errInitGame.init 0 = Except.error () ∧
      runGame errInitGame ticks100 noEvents unitInput 0 3
        = ([Call.initCall], Except.error (GameStep.Initialize, ())) ∧
      ([Call.initCall] : List Call).count Call.quitCall = 0) ∧
    (otherEvents 0 = some (SdlEvent.otherEvent ()) ∧
      errEventGame.handleEvent 0 (SdlEvent.otherEvent ()) = Except.error () ∧
      loopBody errEventGame (otherEvents 0) (ticks100 0) (unitInput 0) 0 0 16
        = ([Call.handleEventCall], Except.error (GameStep.HandleEvent, ()))) ∧
    (handleEventPart errStepGame (noEvents 0) 0 = ([], Except.ok (false, 0)) ∧
      0 < (frameAdvance 0 (ticks100 0) 16).1 ∧
      errStepGame.step 0 (unitInput 0) = Except.error () ∧
      loopBody errStepGame (noEvents 0) (ticks100 0) (unitInput 0) 0 0 16
        = ([] ++ [Call.stepCall], Except.error (GameStep.StepGame, ()))) ∧
    (errDrawGame.draw 0 = Except.error () ∧
      loopBody errDrawGame (noEvents 0) (ticks100 0) (unitInput 0) 0 0 16
        = ([] ++ [Call.stepCall, Call.stepCall, Call.stepCall, Call.stepCall,
            Call.stepCall] ++ [Call.drawCall],
          Except.error (GameStep.DrawFrame, ()))) ∧
    (loopThenQuit errStepGame ticks100 noEvents unitInput (2 + 1) 0 0 16 0
        = ([] ++ [Call.stepCall], Except.error (GameStep.StepGame, ())) ∧
      (([] ++ [Call.stepCall] : List Call)).count Call.quitCall = 0) ∧
    (errQuitGame.quit 0 = Except.error () ∧
      loopThenQuit errQuitGame ticks100 noEvents unitInput 1 0 0 16 0
        = (([] ++ [Call.stepCall, Call.stepCall, Call.stepCall, Call.stepCall,
            Call.stepCall] ++ [Call.drawCall]) ++ [Call.quitCall],
          Except.error (GameStep.Quit, ())) ∧
      ((([] ++ [Call.stepCall, Call.stepCall, Call.stepCall, Call.stepCall,
          Call.stepCall] ++ [Call.drawCall] : List Call)) ++ [Call.quitCall]).count
        Call.quitCall = 1) := by
  have hFA : frameAdvance 0 (ticks100 0) 16 = (5, 100, none) := by
    norm_num [frameAdvance, ratTrunc, MAX_SKIP_FRAME, ticks100]
    decide
  have h1 := (mainloop_error_tagging errInitGame ticks100 noEvents unitInput).1 0 () 3 rfl
  have h2 := (mainloop_error_tagging errEventGame ticks100 otherEvents unitInput).2.1
    0 0 0 16 () () rfl rfl
  have hpos : 0 < (frameAdvance 0 (ticks100 0) 16).1 := by
    rw [hFA]
    decide
  have h3 := (mainloop_error_tagging errStepGame ticks100 noEvents unitInput).2.2.1
    0 0 0 false [] 0 16 () rfl hpos rfl
  have hS4 : stepsLoop errDrawGame (unitInput 0) (frameAdvance 0 (ticks100 0) 16).1 0
      = ([Call.stepCall, Call.stepCall, Call.stepCall, Call.stepCall, Call.stepCall],
        Except.ok ([StepResult.Slowdown 1, StepResult.Slowdown 1, StepResult.Slowdown 1,
          StepResult.Slowdown 1, StepResult.Slowdown 1], 0)) := by
    rw [hFA]
    rfl
  have h4 := (mainloop_error_tagging errDrawGame ticks100 noEvents unitInput).2.2.2.1
    0 0 0 0 false []
    [Call.stepCall, Call.stepCall, Call.stepCall, Call.stepCall, Call.stepCall]
    [StepResult.Slowdown 1, StepResult.Slowdown 1, StepResult.Slowdown 1,
      StepResult.Slowdown 1, StepResult.Slowdown 1] 0 16 () rfl hS4 rfl
  have h5 := (mainloop_error_tagging errStepGame ticks100 noEvents unitInput).2.2.2.2.1
    2 0 0 0 16 ([] ++ [Call.stepCall]) (GameStep.StepGame, ()) h3
  have hE6 : handleEventPart errQuitGame (noEvents 0) 0 = ([], Except.ok (false, 0)) := rfl
  have hS6 : stepsLoop errQuitGame (unitInput 0) (frameAdvance 0 (ticks100 0) 16).1 0
      = ([Call.stepCall, Call.stepCall, Call.stepCall, Call.stepCall, Call.stepCall],
        Except.ok ([StepResult.Done, StepResult.Done, StepResult.Done, StepResult.Done,
          StepResult.Done], 0)) := by
    rw [hFA]
    rfl
  have hLB6 : loopBody errQuitGame (noEvents 0) (ticks100 0) (unitInput 0) 0 0 16
      = ([] ++ [Call.stepCall, Call.stepCall, Call.stepCall, Call.stepCall,
          Call.stepCall] ++ [Call.drawCall],
        Except.ok (0, (frameAdvance 0 (ticks100 0) 16).2.1,
          calculateInterval 16
            (0 / ((frameAdvance 0 (ticks100 0) 16).1 : ℚ)), true)) := by
    simp only [loopBody, hE6, hS6, NO_WAIT, Bool.false_eq_true, if_false,
      show ([StepResult.Done, StepResult.Done, StepResult.Done, StepResult.Done,
        StepResult.Done]).foldl StepResult.merge (StepResult.Slowdown 0)
        = StepResult.Done from rfl,
      show errQuitGame.draw 0 = Except.ok 0 from rfl]
  have hRL6 : runLoop errQuitGame ticks100 noEvents unitInput 1 0 0 16 0
      = ([] ++ [Call.stepCall, Call.stepCall, Call.stepCall, Call.stepCall,
          Call.stepCall] ++ [Call.drawCall], Except.ok (some 0)) := by
    simp only [runLoop, hLB6]
  have h6 := ((mainloop_error_tagging errQuitGame ticks100 noEvents unitInput).2.2.2.2.2
    1 0 0 0 0 16
    ([] ++ [Call.stepCall, Call.stepCall, Call.stepCall, Call.stepCall,
      Call.stepCall] ++ [Call.drawCall]) hRL6).1 () rfl
  exact ⟨⟨rfl, h1.1, h1.2⟩, ⟨rfl, rfl, h2⟩, ⟨rfl, hpos, rfl, h3⟩, ⟨rfl, h4⟩,
    ⟨h5.1, h5.2⟩, ⟨rfl, h6.1, h6.2⟩⟩

end AbagamesUtil
